import Mathlib

/-!
Verification of the Phy-Engine bridge (`physicsLab/circuit/phy_engine.py`).

The development shallowly embeds the pure core of the bridge:
the element-code conversion table, the netlist builder, the wire
resolution, the native-handle lifecycle (create / close), and the
analyze pipeline with its buffer-size computation.  Foreign calls are
modelled by an explicit call log and by engine-status oracles; numeric
property values are modelled by rationals.
-/

namespace PhyEngine

/-- A stored property value as seen through `element.properties.get(key)`:
a numeric value, the `Generate` placeholder marker, or a non-numeric value. -/
inductive PropVal where
  | num (v : ℚ)
  | generate
  | nonNumeric
  deriving DecidableEq

/-- The read-only capability interface a component must satisfy:
a stable identity (Python `id(e)`), the `ModelID` string, a named
property lookup, and a pin count (`count_all_pins` / `len(all_pins())`). -/
structure Element where
  eid : Nat
  modelId : String
  props : String → Option PropVal
  pinCount : Nat

/-- A wire: two `(component identity, pin label)` endpoints
(`w.Source.element_self` / `w.Source._pin_label` and likewise for Target). -/
structure Wire where
  sourceEid : Nat
  sourcePin : Int
  targetEid : Nat
  targetPin : Int
  deriving DecidableEq

/-- The error taxonomy of the bridge (each constructor embeds one
`raise` site of the source). -/
inductive PhyError where
  | emptyCircuit
  | missingProperty (modelId : String) (key : String)
  | invalidPropertyType (modelId : String) (key : String)
  | unsupportedElement (modelId : String)
  | valueError (msg : String)
  | unknownArity (code : Int)
  | arityMismatch (modelId : String) (code : Int) (expected got : Nat)
  | invalidAnalysisKind (arg : String)
  | missingParameter (key : String)
  | nativeCallFailure (call : String)
  | handleClosed
  deriving DecidableEq

/-- `_ELEMENT_PROPS`: engine code → declared property arity
(`None` for codes absent from the dictionary). -/
def elementProps : Int → Option Nat
  | 0 => some 0
  | 1 => some 1
  | 2 => some 1
  | 3 => some 1
  | 4 => some 1
  | 12 => some 1
  | 14 => some 1
  | 15 => some 3
  | 54 => some 0
  | 200 => some 1
  | 201 => some 0
  | 202 => some 0
  | 203 => some 0
  | 204 => some 0
  | 205 => some 0
  | 206 => some 0
  | 207 => some 0
  | 208 => some 0
  | 209 => some 0
  | 211 => some 0
  | 212 => some 0
  | 220 => some 0
  | 221 => some 0
  | 222 => some 0
  | 223 => some 0
  | 224 => some 0
  | 225 => some 0
  | 226 => some 0
  | 227 => some 0
  | 228 => some 0
  | _ => none

/-- `_ELEMENT_BRANCHES`: engine code → branch count
(`None` for codes absent from the dictionary; callers use `.get(code, 0)`). -/
def elementBranches : Int → Option Nat
  | 4 => some 1
  | 5 => some 1
  | 6 => some 1
  | 7 => some 1
  | 12 => some 1
  | 14 => some 2
  | 15 => some 2
  | _ => none

/-- `_get_required_float`: property must be present, not the `Generate`
placeholder, and numeric. -/
def getRequiredFloat (e : Element) (key : String) : Except PhyError ℚ :=
  match e.props key with
  | none => .error (.missingProperty e.modelId key)
  | some .generate => .error (.missingProperty e.modelId key)
  | some .nonNumeric => .error (.invalidPropertyType e.modelId key)
  | some (.num v) => .ok v

/-- `_get_required_int01`: same checks, then coerce by a nonzero test. -/
def getRequiredInt01 (e : Element) (key : String) : Except PhyError Int :=
  match e.props key with
  | none => .error (.missingProperty e.modelId key)
  | some .generate => .error (.missingProperty e.modelId key)
  | some .nonNumeric => .error (.invalidPropertyType e.modelId key)
  | some (.num v) => .ok (if v ≠ 0 then 1 else 0)

/-- `_to_phy_engine_element`: ModelID → (engine code, extracted property list). -/
def toPhyEngineElement (e : Element) : Except PhyError (Int × List ℚ) :=
  match e.modelId with
  | "Ground Component" => .ok (0, [])
  | "Resistor" => do
      let v ← getRequiredFloat e "电阻"
      .ok (1, [v])
  | "Basic Capacitor" => do
      let v ← getRequiredFloat e "电容"
      .ok (2, [v])
  | "Basic Inductor" => do
      let v ← getRequiredFloat e "电感"
      .ok (3, [v])
  | "Battery Source" => do
      let v ← getRequiredFloat e "电压"
      .ok (4, [v])
  | "Simple Switch" | "Push Switch" | "Air Switch" => do
      let v ← getRequiredInt01 e "开关"
      .ok (12, [(v : ℚ)])
  | "Transformer" => do
      let vp ← getRequiredFloat e "输入电压"
      let vs ← getRequiredFloat e "输出电压"
      if vs = 0 then .error (.valueError "Transformer output voltage must be non-zero")
      else .ok (14, [vp / vs])
  | "Mutual Inductor" => do
      let l1 ← getRequiredFloat e "电感1"
      let l2 ← getRequiredFloat e "电感2"
      let k ← getRequiredFloat e "耦合系数"
      .ok (15, [l1, l2, k])
  | "Rectifier" => .ok (54, [])
  | "Logic Input" => do
      let v ← getRequiredInt01 e "开关"
      let state : Int := if v ≠ 0 then 1 else 0
      .ok (200, [(state : ℚ)])
  | "Logic Output" => .ok (201, [])
  | "Or Gate" => .ok (202, [])
  | "Yes Gate" => .ok (203, [])
  | "And Gate" => .ok (204, [])
  | "No Gate" => .ok (205, [])
  | "Xor Gate" => .ok (206, [])
  | "Xnor Gate" => .ok (207, [])
  | "Nand Gate" => .ok (208, [])
  | "Nor Gate" => .ok (209, [])
  | "Imp Gate" => .ok (211, [])
  | "Nimp Gate" => .ok (212, [])
  | "Half Adder" => .ok (220, [])
  | "Full Adder" => .ok (221, [])
  | "Half Subtractor" => .ok (222, [])
  | "Full Subtractor" => .ok (223, [])
  | "Multiplier" => .ok (224, [])
  | "D Flipflop" => .ok (225, [])
  | "T Flipflop" => .ok (226, [])
  | "Real-T Flipflop" => .ok (227, [])
  | "JK Flipflop" => .ok (228, [])
  | other => .error (.unsupportedElement other)

/-- The `analyze_type` argument: the Python parameter is `str | int`. -/
inductive AnalyzeTypeArg where
  | int (n : Int)
  | str (s : String)
  deriving DecidableEq

/-- Python `str.strip()`: drop leading and trailing whitespace. -/
def pyStrip (s : String) : String :=
  ⟨((s.data.dropWhile Char.isWhitespace).reverse.dropWhile Char.isWhitespace).reverse⟩

/-- Python `str.upper()`: upper-case every character. -/
def pyUpper (s : String) : String :=
  ⟨s.data.map Char.toUpper⟩

/-- `_analyze_type_value`: an integer argument is returned unchanged; a
string argument is stripped, upper-cased and matched against the six
recognized kinds of `_PhyEngineAnalyzeType`. -/
def analyzeTypeValue : AnalyzeTypeArg → Except PhyError Int
  | .int n => .ok n
  | .str s =>
    let u := pyUpper (pyStrip s)
    if u = "OP" then .ok 0
    else if u = "DC" then .ok 1
    else if u = "AC" then .ok 2
    else if u = "ACOP" then .ok 3
    else if u = "TR" then .ok 4
    else if u = "TROP" then .ok 5
    else .error (.invalidAnalysisKind s)

/-- The mutable accumulators of the element loop of `PhyEngineCircuit._create`:
`element_codes`, `properties`, `comp_elements`, `comp_codes`. -/
structure BuildAcc where
  elementCodes : List Int
  properties : List ℚ
  compElements : List Element
  compCodes : List Int

/-- One iteration of the element loop of `_create`, after
`_to_phy_engine_element` has produced `(code, props)`: append the code;
for a non-ground code record the component, look up the declared arity
(failing for an unknown code), verify the extracted property count
against it, and append the properties. -/
def processStep (e : Element) (code : Int) (props : List ℚ) (acc : BuildAcc) :
    Except PhyError BuildAcc :=
  let acc1 : BuildAcc := { acc with elementCodes := acc.elementCodes ++ [code] }
  if code = 0 then .ok acc1
  else
    let acc2 : BuildAcc := { acc1 with
      compElements := acc1.compElements ++ [e],
      compCodes := acc1.compCodes ++ [code] }
    match elementProps code with
    | none => .error (.unknownArity code)
    | some expected =>
      if props.length = expected then
        .ok { acc2 with properties := acc2.properties ++ props }
      else .error (.arityMismatch e.modelId code expected props.length)

/-- The element loop of `_create` over the whole input sequence. -/
def buildLoop : List Element → BuildAcc → Except PhyError BuildAcc
  | [], acc => .ok acc
  | e :: rest, acc =>
    match toPhyEngineElement e with
    | .error err => .error err
    | .ok (code, props) =>
      match processStep e code props acc with
      | .error err => .error err
      | .ok acc' => buildLoop rest acc'

/-- `id2idx` lookup: the dictionary `{id(e): i for i, e in enumerate(elements)}`
maps each identity to its position in the input sequence, a later
occurrence overriding an earlier one.  `i` is the position of the head
of `es` in the full input sequence. -/
def id2idxAux (eid : Nat) : List Element → Nat → Option Nat
  | [], _ => none
  | e :: rest, i =>
    match id2idxAux eid rest (i + 1) with
    | some j => some j
    | none => if e.eid = eid then some i else none

/-- `id2idx.get(identity)`: position of the component in the input sequence. -/
def id2idx (elements : List Element) (eid : Nat) : Option Nat :=
  id2idxAux eid elements 0

/-- The flat quadruple one wire contributes: `[s_idx, s_pin, t_idx, t_pin]`
when both endpoints resolve through `id2idx`, nothing otherwise. -/
def wireQuad (elements : List Element) (w : Wire) : List Int :=
  match id2idx elements w.sourceEid, id2idx elements w.targetEid with
  | some si, some ti => [(si : Int), w.sourcePin, (ti : Int), w.targetPin]
  | _, _ => []

/-- The wire loop of `_create`: `wires_flat` accumulated with `extend`,
skipping (`continue`) any wire with an unresolvable endpoint. -/
def buildWiresFlat (elements : List Element) (wires : List Wire) : List Int :=
  wires.foldl (fun acc w =>
    match id2idx elements w.sourceEid, id2idx elements w.targetEid with
    | some si, some ti => acc ++ [(si : Int), w.sourcePin, (ti : Int), w.targetPin]
    | _, _ => acc) []

/-- The flat netlist emitted by `_create` just before the foreign
constructor is invoked, together with the provisional retained lists. -/
structure Netlist where
  elementCodes : List Int
  properties : List ℚ
  wiresFlat : List Int
  compElements : List Element
  compCodes : List Int

/-- The pure part of `PhyEngineCircuit._create`: reject an empty input
sequence, run the element loop, then the wire loop. -/
def buildNetlist (elements : List Element) (wires : List Wire) :
    Except PhyError Netlist :=
  if elements.isEmpty then .error .emptyCircuit
  else
    match buildLoop elements ⟨[], [], [], []⟩ with
    | .error err => .error err
    | .ok acc =>
      .ok { elementCodes := acc.elementCodes, properties := acc.properties,
            wiresFlat := buildWiresFlat elements wires,
            compElements := acc.compElements, compCodes := acc.compCodes }

/-- What the foreign `create_circuit` call hands back: the circuit
pointer (`0` models NULL), the two engine-allocated position buffers,
and the engine-reported component count. -/
structure EngineReply where
  circuitPtr : Nat
  vecPos : Nat
  chunkPos : Nat
  compSize : Nat
  deriving DecidableEq

/-- The state of a `PhyEngineCircuit` after construction: the opaque
pointer (`none` once closed), the two position buffers, the
engine-reported component count, the truncated retained lists, and a
log of foreign-destructor invocations (empty right after a build). -/
structure HandleState where
  circuitPtr : Option Nat
  vecPos : Nat
  chunkPos : Nat
  compSize : Nat
  compElements : List Element
  compCodes : List Int
  destroyLog : List (Nat × Nat × Nat)

/-- `PhyEngineCircuit._create` end-to-end: build the netlist, invoke the
foreign constructor (modelled by `reply`), fail on a NULL handle, and on
success truncate both provisional retained lists to the engine-reported
component count. -/
def createHandle (elements : List Element) (wires : List Wire)
    (reply : EngineReply) : Except PhyError HandleState :=
  match buildNetlist elements wires with
  | .error err => .error err
  | .ok nl =>
    if reply.circuitPtr = 0 then .error (.nativeCallFailure "create_circuit")
    else .ok {
      circuitPtr := some reply.circuitPtr,
      vecPos := reply.vecPos,
      chunkPos := reply.chunkPos,
      compSize := reply.compSize,
      compElements := nl.compElements.take reply.compSize,
      compCodes := nl.compCodes.take reply.compSize,
      destroyLog := [] }

/-- `PhyEngineCircuit.close`: a no-op when the pointer is already gone;
otherwise invoke the foreign destructor with the pointer and the two
position buffers (recorded in `destroyLog`) and clear the pointer. -/
def close (s : HandleState) : HandleState :=
  match s.circuitPtr with
  | none => s
  | some ptr =>
    { s with circuitPtr := none,
             destroyLog := s.destroyLog ++ [(ptr, s.vecPos, s.chunkPos)] }

/-- One foreign call made by `PhyEngineCircuit.analyze`.  The
`circuitSample` record carries the allocation sizes of the three value
buffers and the three offset-index buffers passed to `circuit_sample`. -/
inductive FCall where
  | setAnalyzeType (ptr : Nat) (kind : Int)
  | setTr (ptr : Nat) (step stop : ℚ)
  | setAcOmega (ptr : Nat) (omega : ℚ)
  | circuitAnalyze (ptr : Nat)
  | digitalClk (ptr : Nat)
  | circuitSample (ptr vecPos chunkPos compSize : Nat)
      (voltageLen voltageOrdLen currentLen currentOrdLen digitalLen digitalOrdLen : Nat)
  deriving DecidableEq

/-- Whether a foreign call is the sampling call. -/
def FCall.isSample : FCall → Bool
  | .circuitSample .. => true
  | _ => false

/-- The keyword arguments of `PhyEngineCircuit.analyze`. -/
structure AnalyzeArgs where
  analyzeType : AnalyzeTypeArg
  trStep : ℚ
  trStop : ℚ
  acOmega : Option ℚ
  digitalClk : Bool
  deriving DecidableEq

/-- The status codes the engine returns for each foreign call of one
`analyze` invocation (`0` = success). -/
structure EngineStatuses where
  setAnalyzeTypeStatus : Int
  setTrStatus : Int
  setAcOmegaStatus : Int
  analyzeStatus : Int
  digitalClkStatus : Int
  sampleStatus : Int
  deriving DecidableEq

/-- `total_pins`: sum of each retained component's exposed pin count. -/
def totalPinCount (s : HandleState) : Nat :=
  (s.compElements.map Element.pinCount).sum

/-- `total_branches`: sum of the table branch counts of the retained
codes (`_ELEMENT_BRANCHES.get(code, 0)`), clamped upward to be at least
the total pin count. -/
def totalBranchCount (s : HandleState) : Nat :=
  max ((s.compCodes.map fun c => (elementBranches c).getD 0).sum) (totalPinCount s)

/-- Allocation size of the voltage value buffer: `max(1, total_pins)`. -/
def voltageBufLen (s : HandleState) : Nat := max 1 (totalPinCount s)

/-- Allocation size of the current value buffer: `max(1, total_branches)`. -/
def currentBufLen (s : HandleState) : Nat := max 1 (totalBranchCount s)

/-- Allocation size of the digital value buffer: `max(1, total_pins)`. -/
def digitalBufLen (s : HandleState) : Nat := max 1 (totalPinCount s)

/-- Allocation size of each offset-index buffer: `comp_size + 1`. -/
def ordLen (s : HandleState) : Nat := s.compSize + 1

/-- The `circuit_sample` foreign call with the buffer sizes `analyze`
allocates. -/
def sampleCall (s : HandleState) (ptr : Nat) : FCall :=
  .circuitSample ptr s.vecPos s.chunkPos s.compSize
    (voltageBufLen s) (ordLen s) (currentBufLen s) (ordLen s)
    (digitalBufLen s) (ordLen s)

/-- Final stage of `analyze`: allocate the six buffers, invoke
`circuit_sample`, fail on a non-zero status. -/
def stageSample (s : HandleState) (ptr : Nat) (eng : EngineStatuses)
    (log : List FCall) : Except PhyError Unit × List FCall :=
  let log := log ++ [sampleCall s ptr]
  if eng.sampleStatus ≠ 0 then (.error (.nativeCallFailure "circuit_sample"), log)
  else (.ok (), log)

/-- Logic-clock stage of `analyze`: when requested, invoke
`circuit_digital_clk` and fail on a non-zero status. -/
def stageClk (s : HandleState) (ptr : Nat) (a : AnalyzeArgs)
    (eng : EngineStatuses) (log : List FCall) : Except PhyError Unit × List FCall :=
  if a.digitalClk then
    let log := log ++ [.digitalClk ptr]
    if eng.digitalClkStatus ≠ 0 then (.error (.nativeCallFailure "circuit_digital_clk"), log)
    else stageSample s ptr eng log
  else stageSample s ptr eng log

/-- Analysis stage: invoke `circuit_analyze`, fail on a non-zero status. -/
def stageAnalyze (s : HandleState) (ptr : Nat) (a : AnalyzeArgs)
    (eng : EngineStatuses) (log : List FCall) : Except PhyError Unit × List FCall :=
  let log := log ++ [.circuitAnalyze ptr]
  if eng.analyzeStatus ≠ 0 then (.error (.nativeCallFailure "circuit_analyze"), log)
  else stageClk s ptr a eng log

/-- AC stage: for kinds `AC`/`ACOP` (2, 3) require `ac_omega` (raising
before any foreign call of this stage when absent), then invoke
`circuit_set_ac_omega`. -/
def stageAc (s : HandleState) (ptr : Nat) (aty : Int) (a : AnalyzeArgs)
    (eng : EngineStatuses) (log : List FCall) : Except PhyError Unit × List FCall :=
  if aty = 2 ∨ aty = 3 then
    match a.acOmega with
    | none => (.error (.missingParameter "ac_omega"), log)
    | some om =>
      let log := log ++ [.setAcOmega ptr om]
      if eng.setAcOmegaStatus ≠ 0 then (.error (.nativeCallFailure "circuit_set_ac_omega"), log)
      else stageAnalyze s ptr a eng log
  else stageAnalyze s ptr a eng log

/-- Transient stage: for kinds `TR`/`TROP` (4, 5) invoke `circuit_set_tr`. -/
def stageTr (s : HandleState) (ptr : Nat) (aty : Int) (a : AnalyzeArgs)
    (eng : EngineStatuses) (log : List FCall) : Except PhyError Unit × List FCall :=
  if aty = 4 ∨ aty = 5 then
    let log := log ++ [.setTr ptr a.trStep a.trStop]
    if eng.setTrStatus ≠ 0 then (.error (.nativeCallFailure "circuit_set_tr"), log)
    else stageAc s ptr aty a eng log
  else stageAc s ptr aty a eng log

/-- `PhyEngineCircuit.analyze` up to (and including) the sampling call:
fail fast when the handle is closed, validate the analysis-kind
argument, then run the configure / analyze / clock / sample stages,
logging every foreign call in order. -/
def analyzeRun (s : HandleState) (a : AnalyzeArgs) (eng : EngineStatuses) :
    Except PhyError Unit × List FCall :=
  match s.circuitPtr with
  | none => (.error .handleClosed, [])
  | some ptr =>
    match analyzeTypeValue a.analyzeType with
    | .error err => (.error err, [])
    | .ok aty =>
      let log : List FCall := [.setAnalyzeType ptr aty]
      if eng.setAnalyzeTypeStatus ≠ 0 then
        (.error (.nativeCallFailure "circuit_set_analyze_type"), log)
      else stageTr s ptr aty a eng log

/-! ### Specification views

Recursive reformulations of the loops above, used to state and prove
the claims; each is related to the corresponding loop by a lemma. -/

/-- Conversion of every input component, in input order. -/
def convertAll : List Element → Except PhyError (List (Int × List ℚ))
  | [] => .ok []
  | e :: es =>
    match toPhyEngineElement e with
    | .error err => .error err
    | .ok r =>
      match convertAll es with
      | .error err => .error err
      | .ok rs => .ok (r :: rs)

/-- Concatenated property blocks of the non-ground conversion results. -/
def nonGroundProps : List (Int × List ℚ) → List ℚ
  | [] => []
  | r :: rs => (if r.1 ≠ 0 then r.2 else []) ++ nonGroundProps rs

/-- Codes of the non-ground conversion results, in order. -/
def nonGroundCodes : List (Int × List ℚ) → List Int
  | [] => []
  | r :: rs => (if r.1 ≠ 0 then [r.1] else []) ++ nonGroundCodes rs

/-- The retained component subsequence: input components whose
conversion result is non-ground, in input order. -/
def retainedOf : List Element → List (Int × List ℚ) → List Element
  | e :: es, r :: rs => (if r.1 ≠ 0 then [e] else []) ++ retainedOf es rs
  | _, _ => []

/-- Every non-ground result's property list has the table-declared arity. -/
def arityOk (rs : List (Int × List ℚ)) : Prop :=
  ∀ r ∈ rs, r.1 ≠ 0 → elementProps r.1 = some r.2.length

/-- The spec formula
`sum(property_arity(code) for code in element_codes if code != 0)`. -/
def propAritySum (codes : List Int) : Nat :=
  ((codes.filter fun c => c != 0).map fun c => (elementProps c).getD 0).sum

/-- The wire loop's output, recursively: concatenation of the
quadruples of the resolvable wires. -/
def wireQuads (elements : List Element) : List Wire → List Int
  | [] => []
  | w :: ws => wireQuad elements w ++ wireQuads elements ws

/-! ### Lemmas relating the loops to their specification views -/

theorem processStep_ok {e : Element} {code : Int} {props : List ℚ}
    {acc acc' : BuildAcc} (h : processStep e code props acc = .ok acc') :
    acc'.elementCodes = acc.elementCodes ++ [code] ∧
    ((code = 0 ∧ acc'.properties = acc.properties ∧
        acc'.compElements = acc.compElements ∧ acc'.compCodes = acc.compCodes) ∨
      (code ≠ 0 ∧ elementProps code = some props.length ∧
        acc'.properties = acc.properties ++ props ∧
        acc'.compElements = acc.compElements ++ [e] ∧
        acc'.compCodes = acc.compCodes ++ [code])) := by
  unfold processStep at h
  by_cases h0 : code = 0
  · subst h0
    simp only [reduceIte, Except.ok.injEq] at h
    subst h
    exact ⟨rfl, Or.inl ⟨rfl, rfl, rfl, rfl⟩⟩
  · simp only [if_neg h0] at h
    split at h
    · exact absurd h (by simp)
    · rename_i expected hp
      by_cases hlen : props.length = expected
      · simp only [if_pos hlen, Except.ok.injEq] at h
        subst h
        refine ⟨rfl, Or.inr ⟨h0, ?_, rfl, rfl, rfl⟩⟩
        rw [hp, hlen]
      · simp only [if_neg hlen] at h
        exact absurd h (by simp)

theorem buildLoop_ok_spec (es : List Element) (acc acc' : BuildAcc)
    (h : buildLoop es acc = .ok acc') :
    ∃ rs, convertAll es = .ok rs ∧
      acc'.elementCodes = acc.elementCodes ++ rs.map Prod.fst ∧
      acc'.properties = acc.properties ++ nonGroundProps rs ∧
      acc'.compElements = acc.compElements ++ retainedOf es rs ∧
      acc'.compCodes = acc.compCodes ++ nonGroundCodes rs ∧
      arityOk rs := by
  induction es generalizing acc with
  | nil =>
    simp only [buildLoop, Except.ok.injEq] at h
    subst h
    exact ⟨[], rfl, by simp [nonGroundProps], by simp [nonGroundProps],
      by simp [retainedOf], by simp [nonGroundCodes], by simp [arityOk]⟩
  | cons e es ih =>
    simp only [buildLoop] at h
    split at h
    · exact absurd h (by simp)
    · rename_i code props hconv
      split at h
      · exact absurd h (by simp)
      · rename_i acc1 hstep
        obtain ⟨rs, hcall, hec, hp, hce, hcc, har⟩ := ih acc1 h
        obtain ⟨h1, hcases⟩ := processStep_ok hstep
        refine ⟨(code, props) :: rs, ?_, ?_, ?_, ?_, ?_, ?_⟩
        · simp [convertAll, hconv, hcall]
        · simp [hec, h1, List.append_assoc]
        · rcases hcases with ⟨h0, hpp, _, _⟩ | ⟨h0, _, hpp, _, _⟩
          · simp [hp, hpp, nonGroundProps, h0]
          · simp [hp, hpp, nonGroundProps, h0, List.append_assoc]
        · rcases hcases with ⟨h0, _, hee, _⟩ | ⟨h0, _, _, hee, _⟩
          · simp [hce, hee, retainedOf, h0]
          · simp [hce, hee, retainedOf, h0, List.append_assoc]
        · rcases hcases with ⟨h0, _, _, hqq⟩ | ⟨h0, _, _, _, hqq⟩
          · simp [hcc, hqq, nonGroundCodes, h0]
          · simp [hcc, hqq, nonGroundCodes, h0, List.append_assoc]
        · intro r hr hne
          rcases List.mem_cons.mp hr with hhead | htail
          · subst hhead
            rcases hcases with ⟨h0, _⟩ | ⟨_, harr, _⟩
            · exact absurd h0 hne
            · exact harr
          · exact har r htail hne

theorem convertAll_length (es : List Element) (rs : List (Int × List ℚ))
    (h : convertAll es = .ok rs) : rs.length = es.length := by
  induction es generalizing rs with
  | nil =>
    simp only [convertAll, Except.ok.injEq] at h
    subst h; rfl
  | cons e es ih =>
    simp only [convertAll] at h
    split at h
    · exact absurd h (by simp)
    · split at h
      · exact absurd h (by simp)
      · rename_i rs' hrs'
        simp only [Except.ok.injEq] at h
        subst h
        simp [ih rs' hrs']

theorem nonGroundProps_length (rs : List (Int × List ℚ)) (h : arityOk rs) :
    (nonGroundProps rs).length = propAritySum (rs.map Prod.fst) := by
  induction rs with
  | nil => simp [nonGroundProps, propAritySum]
  | cons r rs ih =>
    have htail : arityOk rs := fun x hx hne => h x (List.mem_cons_of_mem r hx) hne
    by_cases h0 : r.1 = 0
    · simp [nonGroundProps, propAritySum, List.filter_cons, h0, ih htail]
    · have hr := h r (List.mem_cons_self r rs) h0
      simp [nonGroundProps, propAritySum, List.filter_cons, h0, hr, ih htail]

theorem nonGroundCodes_ne_zero (rs : List (Int × List ℚ)) :
    ∀ c ∈ nonGroundCodes rs, c ≠ 0 := by
  induction rs with
  | nil => simp [nonGroundCodes]
  | cons r rs ih =>
    intro c hc
    by_cases h0 : r.1 = 0
    · rw [nonGroundCodes, if_neg (by simp [h0])] at hc
      exact ih c (by simpa using hc)
    · rw [nonGroundCodes, if_pos h0] at hc
      rcases List.mem_append.mp hc with h1 | h2
      · simp only [List.mem_singleton] at h1
        subst h1
        exact h0
      · exact ih c h2

theorem buildNetlist_ok_spec (elements : List Element) (wires : List Wire)
    (nl : Netlist) (h : buildNetlist elements wires = .ok nl) :
    elements ≠ [] ∧
    ∃ rs, convertAll elements = .ok rs ∧
      nl.elementCodes = rs.map Prod.fst ∧
      nl.properties = nonGroundProps rs ∧
      nl.compElements = retainedOf elements rs ∧
      nl.compCodes = nonGroundCodes rs ∧
      nl.wiresFlat = buildWiresFlat elements wires ∧
      arityOk rs := by
  unfold buildNetlist at h
  split at h
  · exact absurd h (by simp)
  · rename_i hne
    split at h
    · exact absurd h (by simp)
    · rename_i acc hloop
      simp only [Except.ok.injEq] at h
      subst h
      obtain ⟨rs, hcall, hec, hp, hce, hcc, har⟩ :=
        buildLoop_ok_spec elements ⟨[], [], [], []⟩ acc hloop
      refine ⟨?_, rs, hcall, ?_, ?_, ?_, ?_, rfl, har⟩
      · intro hnil
        subst hnil
        simp at hne
      · simpa using hec
      · simpa using hp
      · simpa using hce
      · simpa using hcc

theorem buildWiresFlat_eq (elements : List Element) (wires : List Wire) :
    buildWiresFlat elements wires = wireQuads elements wires := by
  have key : ∀ (ws : List Wire) (acc : List Int),
      ws.foldl (fun acc w =>
        match id2idx elements w.sourceEid, id2idx elements w.targetEid with
        | some si, some ti => acc ++ [(si : Int), w.sourcePin, (ti : Int), w.targetPin]
        | _, _ => acc) acc = acc ++ wireQuads elements ws := by
    intro ws
    induction ws with
    | nil => intro acc; simp [wireQuads]
    | cons w ws ih =>
      intro acc
      rw [List.foldl_cons, ih]
      have hstep : (match id2idx elements w.sourceEid, id2idx elements w.targetEid with
          | some si, some ti => acc ++ [(si : Int), w.sourcePin, (ti : Int), w.targetPin]
          | _, _ => acc) = acc ++ wireQuad elements w := by
        unfold wireQuad
        cases id2idx elements w.sourceEid <;> cases id2idx elements w.targetEid <;> simp
      rw [hstep, wireQuads, List.append_assoc]
  unfold buildWiresFlat
  rw [key wires []]
  simp

theorem wireQuads_append (elements : List Element) (ws1 ws2 : List Wire) :
    wireQuads elements (ws1 ++ ws2) = wireQuads elements ws1 ++ wireQuads elements ws2 := by
  induction ws1 with
  | nil => simp [wireQuads]
  | cons w ws ih => simp [wireQuads, ih, List.append_assoc]

theorem wireQuad_unresolved (elements : List Element) (w : Wire)
    (h : id2idx elements w.sourceEid = none ∨ id2idx elements w.targetEid = none) :
    wireQuad elements w = [] := by
  unfold wireQuad
  rcases h with h | h
  · rw [h]
  · rw [h]
    cases id2idx elements w.sourceEid <;> rfl

theorem id2idxAux_some (eid : Nat) (es : List Element) (i j : Nat)
    (h : id2idxAux eid es i = some j) :
    ∃ k e, es[k]? = some e ∧ e.eid = eid ∧ j = i + k := by
  induction es generalizing i with
  | nil => simp [id2idxAux] at h
  | cons a rest ih =>
    rw [id2idxAux] at h
    cases hrec : id2idxAux eid rest (i + 1) with
    | some j' =>
      rw [hrec] at h
      simp only [Option.some.injEq] at h
      subst h
      obtain ⟨k, e, hk, heid, hj⟩ := ih (i + 1) hrec
      exact ⟨k + 1, e, by simpa using hk, heid, by omega⟩
    | none =>
      rw [hrec] at h
      by_cases ha : a.eid = eid
      · rw [if_pos ha] at h
        simp only [Option.some.injEq] at h
        subst h
        exact ⟨0, a, by simp, ha, by omega⟩
      · rw [if_neg ha] at h
        exact absurd h (by simp)

theorem id2idxAux_unique (eid : Nat) (es : List Element) (i k : Nat) (e : Element)
    (hk : es[k]? = some e) (heid : e.eid = eid)
    (huniq : ∀ k' e', es[k']? = some e' → e'.eid = eid → k' = k) :
    id2idxAux eid es i = some (i + k) := by
  induction es generalizing i k with
  | nil => simp at hk
  | cons a rest ih =>
    cases k with
    | zero =>
      simp only [List.getElem?_cons_zero, Option.some.injEq] at hk
      subst hk
      cases hrec : id2idxAux eid rest (i + 1) with
      | some j' =>
        obtain ⟨k', e', hk', heid', _⟩ := id2idxAux_some eid rest (i + 1) j' hrec
        have : k' + 1 = 0 := huniq (k' + 1) e' (by simpa using hk') heid'
        omega
      | none =>
        rw [id2idxAux, hrec, if_pos heid]
        simp
    | succ k' =>
      simp only [List.getElem?_cons_succ] at hk
      have huniq' : ∀ k'' e'', rest[k'']? = some e'' → e''.eid = eid → k'' = k' := by
        intro k'' e'' hk'' heid''
        have := huniq (k'' + 1) e'' (by simpa using hk'') heid''
        omega
      have hrec := ih (i + 1) k' hk huniq'
      have harith : i + 1 + k' = i + (k' + 1) := by omega
      rw [id2idxAux, hrec, harith]

theorem id2idx_unique_position (elements : List Element) (i : Nat) (e : Element)
    (hi : elements[i]? = some e)
    (huniq : ∀ j e', elements[j]? = some e' → e'.eid = e.eid → j = i) :
    id2idx elements e.eid = some i := by
  have := id2idxAux_unique e.eid elements 0 i e hi rfl huniq
  simpa [id2idx] using this

theorem stageSample_sample (s : HandleState) (ptr : Nat) (eng : EngineStatuses)
    (log : List FCall) :
    ∀ c ∈ (stageSample s ptr eng log).2, c.isSample = true →
      c ∈ log ∨ c = sampleCall s ptr := by
  intro c hc _
  by_cases hst : eng.sampleStatus ≠ 0 <;> simp [stageSample, hst] at hc <;> exact hc

theorem stageClk_sample (s : HandleState) (ptr : Nat) (a : AnalyzeArgs)
    (eng : EngineStatuses) (log : List FCall) :
    ∀ c ∈ (stageClk s ptr a eng log).2, c.isSample = true →
      c ∈ log ∨ c = sampleCall s ptr := by
  intro c hc hs
  by_cases hd : a.digitalClk
  · by_cases hst : eng.digitalClkStatus ≠ 0
    · simp [stageClk, hd, hst] at hc
      rcases hc with h | h
      · exact Or.inl h
      · subst h
        simp [FCall.isSample] at hs
    · simp [stageClk, hd, hst] at hc
      rcases stageSample_sample s ptr eng (log ++ [.digitalClk ptr]) c hc hs with h | h
      · rcases List.mem_append.mp h with h' | h'
        · exact Or.inl h'
        · rw [List.mem_singleton] at h'
          subst h'
          simp [FCall.isSample] at hs
      · exact Or.inr h
  · simp [stageClk, hd] at hc
    exact stageSample_sample s ptr eng log c hc hs

theorem stageAnalyze_sample (s : HandleState) (ptr : Nat) (a : AnalyzeArgs)
    (eng : EngineStatuses) (log : List FCall) :
    ∀ c ∈ (stageAnalyze s ptr a eng log).2, c.isSample = true →
      c ∈ log ∨ c = sampleCall s ptr := by
  intro c hc hs
  by_cases hst : eng.analyzeStatus ≠ 0
  · simp [stageAnalyze, hst] at hc
    rcases hc with h | h
    · exact Or.inl h
    · subst h
      simp [FCall.isSample] at hs
  · simp [stageAnalyze, hst] at hc
    rcases stageClk_sample s ptr a eng (log ++ [.circuitAnalyze ptr]) c hc hs with h | h
    · rcases List.mem_append.mp h with h' | h'
      · exact Or.inl h'
      · rw [List.mem_singleton] at h'
        subst h'
        simp [FCall.isSample] at hs
    · exact Or.inr h

theorem stageAc_sample (s : HandleState) (ptr : Nat) (aty : Int) (a : AnalyzeArgs)
    (eng : EngineStatuses) (log : List FCall) :
    ∀ c ∈ (stageAc s ptr aty a eng log).2, c.isSample = true →
      c ∈ log ∨ c = sampleCall s ptr := by
  intro c hc hs
  by_cases hk : aty = 2 ∨ aty = 3
  · cases hom : a.acOmega with
    | none =>
      simp [stageAc, hk, hom] at hc
      exact Or.inl hc
    | some om =>
      by_cases hst : eng.setAcOmegaStatus ≠ 0
      · simp [stageAc, hk, hom, hst] at hc
        rcases hc with h | h
        · exact Or.inl h
        · subst h
          simp [FCall.isSample] at hs
      · simp [stageAc, hk, hom, hst] at hc
        rcases stageAnalyze_sample s ptr a eng (log ++ [.setAcOmega ptr om]) c hc hs with h | h
        · rcases List.mem_append.mp h with h' | h'
          · exact Or.inl h'
          · rw [List.mem_singleton] at h'
            subst h'
            simp [FCall.isSample] at hs
        · exact Or.inr h
  · simp [stageAc, hk] at hc
    exact stageAnalyze_sample s ptr a eng log c hc hs

theorem stageTr_sample (s : HandleState) (ptr : Nat) (aty : Int) (a : AnalyzeArgs)
    (eng : EngineStatuses) (log : List FCall) :
    ∀ c ∈ (stageTr s ptr aty a eng log).2, c.isSample = true →
      c ∈ log ∨ c = sampleCall s ptr := by
  intro c hc hs
  by_cases hk : aty = 4 ∨ aty = 5
  · by_cases hst : eng.setTrStatus ≠ 0
    · simp [stageTr, hk, hst] at hc
      rcases hc with h | h
      · exact Or.inl h
      · subst h
        simp [FCall.isSample] at hs
    · simp [stageTr, hk, hst] at hc
      rcases stageAc_sample s ptr aty a eng (log ++ [.setTr ptr a.trStep a.trStop]) c hc hs with h | h
      · rcases List.mem_append.mp h with h' | h'
        · exact Or.inl h'
        · rw [List.mem_singleton] at h'
          subst h'
          simp [FCall.isSample] at hs
      · exact Or.inr h
  · simp [stageTr, hk] at hc
    exact stageAc_sample s ptr aty a eng log c hc hs

theorem analyzeRun_sample (s : HandleState) (ptr : Nat) (a : AnalyzeArgs)
    (eng : EngineStatuses) (hp : s.circuitPtr = some ptr) :
    ∀ c ∈ (analyzeRun s a eng).2, c.isSample = true → c = sampleCall s ptr := by
  intro c hc hs
  unfold analyzeRun at hc
  rw [hp] at hc
  cases hat : analyzeTypeValue a.analyzeType with
  | error err =>
    rw [hat] at hc
    simp at hc
  | ok aty =>
    rw [hat] at hc
    by_cases hst : eng.setAnalyzeTypeStatus ≠ 0
    · simp [hst] at hc
      subst hc
      simp [FCall.isSample] at hs
    · simp [hst] at hc
      rcases stageTr_sample s ptr aty a eng [.setAnalyzeType ptr aty] c hc hs with h | h
      · rw [List.mem_singleton] at h
        subst h
        simp [FCall.isSample] at hs
      · exact h

theorem close_close (s : HandleState) : close (close s) = close s := by
  unfold close
  cases h : s.circuitPtr with
  | none => rw [h]
  | some ptr => rfl

/-! ### Concrete fixtures -/

def groundE : Element :=
  { eid := 1, modelId := "Ground Component", props := fun _ => none, pinCount := 1 }

def resistorE : Element :=
  { eid := 2, modelId := "Resistor",
    props := fun k => if k = "电阻" then some (.num 1000) else none, pinCount := 2 }

def batteryE : Element :=
  { eid := 3, modelId := "Battery Source",
    props := fun k => if k = "电压" then some (.num 5) else none, pinCount := 2 }

def transformerE : Element :=
  { eid := 4, modelId := "Transformer",
    props := fun k =>
      if k = "输入电压" then some (.num 4)
      else if k = "输出电压" then some (.num 2) else none,
    pinCount := 4 }

def demoElems : List Element := [groundE, resistorE, batteryE]

def demoWires : List Wire :=
  [{ sourceEid := 2, sourcePin := 0, targetEid := 3, targetPin := 1 }]

def badWire : Wire := { sourceEid := 99, sourcePin := 0, targetEid := 3, targetPin := 1 }

def demoNl : Netlist :=
  { elementCodes := [0, 1, 4], properties := [1000, 5], wiresFlat := [1, 0, 2, 1],
    compElements := [resistorE, batteryE], compCodes := [1, 4] }

theorem demoBuild_eq : buildNetlist demoElems demoWires = .ok demoNl := rfl

/-! ### The claims -/

/-- Claim C1: for every successful netlist build the emitted properties
sequence has length equal to the sum of the table-declared property
arities of the non-zero element codes; and whenever a non-ground
component's extracted property list length differs from the declared
arity for its code, the build step fails with the arity-mismatch error,
never silently truncating or padding the property stream. -/
theorem build_properties_length_matches_arity :
    (∀ (elements : List Element) (wires : List Wire) (nl : Netlist),
        buildNetlist elements wires = .ok nl →
        nl.properties.length = propAritySum nl.elementCodes) ∧
    (∀ (e : Element) (code : Int) (props : List ℚ) (acc : BuildAcc) (expected : Nat),
        code ≠ 0 → elementProps code = some expected → props.length ≠ expected →
        processStep e code props acc =
          .error (.arityMismatch e.modelId code expected props.length)) := by
  constructor
  · intro elements wires nl h
    obtain ⟨-, rs, -, hec, hp, -, -, -, har⟩ := buildNetlist_ok_spec elements wires nl h
    rw [hp, hec]
    exact nonGroundProps_length rs har
  · intro e code props acc expected h0 hp hlen
    simp only [processStep, if_neg h0, hp, if_neg hlen]

theorem build_properties_length_matches_arity_witness :
    demoNl.properties.length = propAritySum demoNl.elementCodes ∧
    processStep resistorE 1 [] ⟨[], [], [], []⟩ =
      .error (.arityMismatch "Resistor" 1 1 0) :=
  ⟨build_properties_length_matches_arity.1 demoElems demoWires demoNl demoBuild_eq,
   build_properties_length_matches_arity.2 resistorE 1 [] ⟨[], [], [], []⟩ 1
     (by decide) rfl (by decide)⟩

/-- Claim C9: a successful build emits exactly one element code per
input component, in input order (the codes are the first components of
the conversion results of the input sequence), and every ground
component (code 0) contributes no properties and no entry to the
retained component list. -/
theorem element_codes_one_per_input :
    ∀ (elements : List Element) (wires : List Wire) (nl : Netlist),
      buildNetlist elements wires = .ok nl →
      ∃ rs, convertAll elements = .ok rs ∧
        nl.elementCodes = rs.map Prod.fst ∧
        nl.elementCodes.length = elements.length ∧
        nl.compElements = retainedOf elements rs ∧
        nl.properties = nonGroundProps rs ∧
        ∀ c ∈ nl.compCodes, c ≠ 0 := by
  intro elements wires nl h
  obtain ⟨-, rs, hcall, hec, hp, hce, hcc, -, -⟩ := buildNetlist_ok_spec elements wires nl h
  refine ⟨rs, hcall, hec, ?_, hce, hp, ?_⟩
  · rw [hec, List.length_map]
    exact convertAll_length elements rs hcall
  · rw [hcc]
    exact nonGroundCodes_ne_zero rs

theorem element_codes_one_per_input_witness :
    demoNl.elementCodes = [0, 1, 4] ∧
    demoNl.elementCodes.length = demoElems.length ∧
    demoNl.compElements = [resistorE, batteryE] := by
  obtain ⟨rs, -, -, hlen, -, -, -⟩ :=
    element_codes_one_per_input demoElems demoWires demoNl demoBuild_eq
  exact ⟨rfl, hlen, rfl⟩

/-- Claim C2: the emitted wire quadruples carry the positions of the
endpoint components in the full input sequence: the flat wire stream is
the concatenation of the per-wire quadruples, a resolved quadruple
holds exactly the two resolved indices and pin labels, a resolved index
is a valid input-sequence position holding the endpoint's identity, and
a component with a unique identity resolves to exactly its position in
the input sequence — not its position in the retained list. -/
theorem wires_use_input_sequence_positions :
    ∀ (elements : List Element) (wires : List Wire) (nl : Netlist),
      buildNetlist elements wires = .ok nl →
      nl.wiresFlat = wireQuads elements wires ∧
      (∀ w : Wire, ∀ si ti : Nat,
          id2idx elements w.sourceEid = some si →
          id2idx elements w.targetEid = some ti →
          wireQuad elements w = [(si : Int), w.sourcePin, (ti : Int), w.targetPin] ∧
          (∃ e, elements[si]? = some e ∧ e.eid = w.sourceEid) ∧
          (∃ e, elements[ti]? = some e ∧ e.eid = w.targetEid)) ∧
      (∀ (i : Nat) (e : Element), elements[i]? = some e →
          (∀ (j : Nat) (e' : Element), elements[j]? = some e' → e'.eid = e.eid → j = i) →
          id2idx elements e.eid = some i) := by
  intro elements wires nl h
  obtain ⟨-, rs, -, -, -, -, -, hw, -⟩ := buildNetlist_ok_spec elements wires nl h
  refine ⟨by rw [hw]; exact buildWiresFlat_eq elements wires, ?_, ?_⟩
  · intro w si ti hsi hti
    refine ⟨by unfold wireQuad; rw [hsi, hti], ?_, ?_⟩
    · obtain ⟨k, e, hk, heid, hj⟩ := id2idxAux_some w.sourceEid elements 0 si hsi
      exact ⟨e, by simpa [hj] using hk, heid⟩
    · obtain ⟨k, e, hk, heid, hj⟩ := id2idxAux_some w.targetEid elements 0 ti hti
      exact ⟨e, by simpa [hj] using hk, heid⟩
  · exact fun i e hi huniq => id2idx_unique_position elements i e hi huniq

theorem wires_use_input_sequence_positions_witness :
    demoNl.wiresFlat = wireQuads demoElems demoWires ∧
    wireQuads demoElems demoWires = [1, 0, 2, 1] :=
  ⟨(wires_use_input_sequence_positions demoElems demoWires demoNl demoBuild_eq).1, rfl⟩

/-- Claim C6: a wire with an endpoint that does not resolve to a
component of the input sequence is silently dropped: the build result
(and hence the emitted flat wire sequence) is exactly what it would be
with the wire absent — no error is raised and the quadruples of the
resolving wires are unaffected. -/
theorem unresolvable_wire_silently_dropped :
    ∀ (elements : List Element) (ws1 ws2 : List Wire) (w : Wire),
      id2idx elements w.sourceEid = none ∨ id2idx elements w.targetEid = none →
      buildNetlist elements (ws1 ++ w :: ws2) = buildNetlist elements (ws1 ++ ws2) ∧
      buildWiresFlat elements (ws1 ++ w :: ws2) = buildWiresFlat elements (ws1 ++ ws2) := by
  intro elements ws1 ws2 w h
  have hq : wireQuad elements w = [] := wireQuad_unresolved elements w h
  have hwf : buildWiresFlat elements (ws1 ++ w :: ws2) = buildWiresFlat elements (ws1 ++ ws2) := by
    rw [buildWiresFlat_eq, buildWiresFlat_eq, wireQuads_append, wireQuads_append]
    rw [show wireQuads elements (w :: ws2) = wireQuad elements w ++ wireQuads elements ws2 from rfl]
    rw [hq, List.nil_append]
  refine ⟨?_, hwf⟩
  unfold buildNetlist
  by_cases he : elements.isEmpty = true
  · rw [if_pos he, if_pos he]
  · rw [if_neg he, if_neg he]
    cases hloop : buildLoop elements ⟨[], [], [], []⟩ with
    | error err => rfl
    | ok acc => rw [hwf]

theorem unresolvable_wire_silently_dropped_witness :
    buildNetlist demoElems (demoWires ++ badWire :: []) =
      buildNetlist demoElems (demoWires ++ []) ∧
    buildWiresFlat demoElems (demoWires ++ badWire :: []) =
      buildWiresFlat demoElems (demoWires ++ []) :=
  unresolvable_wire_silently_dropped demoElems demoWires [] badWire (Or.inl rfl)

def builtHandle : HandleState :=
  { circuitPtr := some 7, vecPos := 11, chunkPos := 12, compSize := 2,
    compElements := [resistorE, batteryE], compCodes := [1, 4], destroyLog := [] }

def closedHandle : HandleState := { builtHandle with circuitPtr := none }

def demoArgs : AnalyzeArgs :=
  { analyzeType := .str "DC", trStep := 1/1000000, trStop := 1/1000000,
    acOmega := none, digitalClk := false }

def okStatuses : EngineStatuses :=
  { setAnalyzeTypeStatus := 0, setTrStatus := 0, setAcOmegaStatus := 0,
    analyzeStatus := 0, digitalClkStatus := 0, sampleStatus := 0 }

/-- Claim C3: from a freshly built handle (pointer present, destructor
not yet invoked) Close is idempotent: any number of Close calls invokes
the foreign destructor exactly once, with the pointer and the two
position buffers, and every Close after the first is a no-op that
changes no observable state. -/
theorem close_destroys_exactly_once :
    ∀ (s : HandleState) (ptr : Nat) (n : Nat),
      s.circuitPtr = some ptr → s.destroyLog = [] →
      (close s).destroyLog = [(ptr, s.vecPos, s.chunkPos)] ∧
      close^[n + 1] s = close s := by
  intro s ptr n hp hlog
  constructor
  · unfold close
    rw [hp]
    simp [hlog]
  · induction n with
    | zero => rw [Function.iterate_one]
    | succ m ih => rw [Function.iterate_succ_apply', ih, close_close]

theorem close_destroys_exactly_once_witness :
    (close builtHandle).destroyLog = [(7, 11, 12)] ∧
    close^[2 + 1] builtHandle = close builtHandle :=
  close_destroys_exactly_once builtHandle 7 2 rfl rfl

/-- Claim C4: after a successful build the retained component list held
by the handle is the provisional retained list truncated to the
engine-reported component count, the retained code list is truncated
identically, and neither length exceeds the engine-reported count. -/
theorem retained_lists_truncated_to_engine_count :
    ∀ (elements : List Element) (wires : List Wire) (reply : EngineReply) (h : HandleState),
      createHandle elements wires reply = .ok h →
      ∃ nl, buildNetlist elements wires = .ok nl ∧
        h.compElements = nl.compElements.take reply.compSize ∧
        h.compCodes = nl.compCodes.take reply.compSize ∧
        h.compElements.length ≤ reply.compSize ∧
        h.compCodes.length ≤ reply.compSize ∧
        h.compSize = reply.compSize := by
  intro elements wires reply h hc
  unfold createHandle at hc
  split at hc
  · exact absurd hc (by simp)
  · rename_i nl hnl
    by_cases hz : reply.circuitPtr = 0
    · rw [if_pos hz] at hc
      exact absurd hc (by simp)
    · rw [if_neg hz] at hc
      simp only [Except.ok.injEq] at hc
      subst hc
      refine ⟨nl, hnl, rfl, rfl, ?_, ?_, rfl⟩
      · exact List.length_take_le _ _
      · exact List.length_take_le _ _

def demoReply : EngineReply := { circuitPtr := 7, vecPos := 11, chunkPos := 12, compSize := 1 }

def truncatedHandle : HandleState :=
  { circuitPtr := some 7, vecPos := 11, chunkPos := 12, compSize := 1,
    compElements := [resistorE], compCodes := [1], destroyLog := [] }

theorem retained_lists_truncated_to_engine_count_witness :
    createHandle demoElems demoWires demoReply = .ok truncatedHandle ∧
    truncatedHandle.compElements.length ≤ demoReply.compSize := by
  refine ⟨rfl, ?_⟩
  obtain ⟨nl, -, -, -, h4, -, -⟩ :=
    retained_lists_truncated_to_engine_count demoElems demoWires demoReply truncatedHandle rfl
  exact h4

/-- Claim C7: once the handle is closed, an analyze/sample invocation
fails with the handle-closed error before making any foreign call,
while Close itself remains callable (as a no-op). -/
theorem closed_handle_rejects_operations :
    ∀ (s : HandleState) (a : AnalyzeArgs) (eng : EngineStatuses),
      s.circuitPtr = none →
      analyzeRun s a eng = (.error .handleClosed, []) ∧ close s = s := by
  intro s a eng h
  constructor
  · unfold analyzeRun
    rw [h]
  · unfold close
    rw [h]

theorem closed_handle_rejects_operations_witness :
    analyzeRun closedHandle demoArgs okStatuses = (.error .handleClosed, []) ∧
    close closedHandle = closedHandle :=
  closed_handle_rejects_operations closedHandle demoArgs okStatuses rfl

def int99Args : AnalyzeArgs :=
  { analyzeType := .int 99, trStep := 1/1000000, trStop := 1/1000000,
    acOmega := none, digitalClk := false }

/-- Claim C8 counterexample: the integer kind 99 is not one of the six
recognized kinds, yet kind validation accepts it unchanged and the
analyze pipeline proceeds to make the foreign configuration call with
it instead of failing with the invalid-analysis-kind error. -/
theorem analyze_kind_int_unvalidated :
    analyzeTypeValue (.int 99) = .ok 99 ∧
    (analyzeRun builtHandle int99Args okStatuses).2.head? =
      some (.setAnalyzeType 7 99) :=
  ⟨rfl, rfl⟩

/-- Claim C8 (amended): an unrecognized analysis kind given as a string
makes the configure step fail with the invalid-analysis-kind error
before any foreign call is made, but an integer kind is passed through
to the engine unvalidated. -/
theorem analyze_kind_string_validated_int_passthrough :
    ∀ (s : HandleState) (ptr : Nat) (a : AnalyzeArgs) (eng : EngineStatuses)
      (str : String) (n : Int),
      s.circuitPtr = some ptr →
      a.analyzeType = .str str →
      pyUpper (pyStrip str) ∉ (["OP", "DC", "AC", "ACOP", "TR", "TROP"] : List String) →
      analyzeTypeValue a.analyzeType = .error (.invalidAnalysisKind str) ∧
      analyzeRun s a eng = (.error (.invalidAnalysisKind str), []) ∧
      analyzeTypeValue (.int n) = .ok n := by
  intro s ptr a eng str n hp harg hunk
  simp only [List.mem_cons, List.not_mem_nil, or_false, not_or] at hunk
  obtain ⟨h1, h2, h3, h4, h5, h6⟩ := hunk
  have hval : analyzeTypeValue a.analyzeType = .error (.invalidAnalysisKind str) := by
    rw [harg]
    simp only [analyzeTypeValue, if_neg h1, if_neg h2, if_neg h3, if_neg h4,
      if_neg h5, if_neg h6]
  refine ⟨hval, ?_, rfl⟩
  unfold analyzeRun
  rw [hp, hval]

def fooArgs : AnalyzeArgs :=
  { analyzeType := .str "FOO", trStep := 1/1000000, trStop := 1/1000000,
    acOmega := none, digitalClk := false }

theorem analyze_kind_string_validated_int_passthrough_witness :
    analyzeTypeValue (.str "FOO") = .error (.invalidAnalysisKind "FOO") ∧
    analyzeRun builtHandle fooArgs okStatuses = (.error (.invalidAnalysisKind "FOO"), []) ∧
    analyzeTypeValue (.int 99) = .ok 99 :=
  analyze_kind_string_validated_int_passthrough builtHandle 7 fooArgs okStatuses "FOO" 99
    rfl rfl (by decide)

def allGroundReply : EngineReply :=
  { circuitPtr := 7, vecPos := 11, chunkPos := 12, compSize := 0 }

def groundOnlyHandle : HandleState :=
  { circuitPtr := some 7, vecPos := 11, chunkPos := 12, compSize := 0,
    compElements := [], compCodes := [], destroyLog := [] }

/-- Claim C5 counterexample: a reachable post-build state with no
retained components (one ground component, engine-reported count 0) has
clamped branch total 0, yet the sampling call allocates its current
buffer with one entry — `max(1, …)` of the claimed size, not the
claimed size itself. -/
theorem sample_current_buffer_clamped_to_one :
    createHandle [groundE] [] allGroundReply = .ok groundOnlyHandle ∧
    totalBranchCount groundOnlyHandle = 0 ∧
    (analyzeRun groundOnlyHandle demoArgs okStatuses).2 =
      [.setAnalyzeType 7 1, .circuitAnalyze 7,
       .circuitSample 7 11 12 0 1 1 1 1 1 1] :=
  ⟨rfl, rfl, rfl⟩

/-- Claim C5 (amended): every sampling call the analyze pipeline makes
allocates the current buffer with `max(1, sum of the retained
components' table branch counts, clamped upward to the total pin
count)` entries — at least one entry even when the clamped total is
zero, the only deviation from the original claim — the voltage and
digital buffers with `max(1, total pin count)` entries, and each of the
three offset-index buffers with exactly `component_count + 1` entries. -/
theorem sample_buffer_sizes :
    ∀ (s : HandleState) (ptr : Nat) (a : AnalyzeArgs) (eng : EngineStatuses),
      s.circuitPtr = some ptr →
      ∀ c ∈ (analyzeRun s a eng).2, c.isSample = true →
        c = .circuitSample ptr s.vecPos s.chunkPos s.compSize
              (max 1 (totalPinCount s)) (s.compSize + 1)
              (max 1 (totalBranchCount s)) (s.compSize + 1)
              (max 1 (totalPinCount s)) (s.compSize + 1) := by
  intro s ptr a eng hp c hc hs
  rw [analyzeRun_sample s ptr a eng hp c hc hs]
  rfl

theorem sample_buffer_sizes_witness :
    sampleCall builtHandle 7 = .circuitSample 7 11 12 2 4 3 4 3 4 3 :=
  sample_buffer_sizes builtHandle 7 demoArgs okStatuses rfl
    (sampleCall builtHandle 7) (by decide) rfl

/-- Claim C10: for a Transformer component whose two voltage properties
read successfully, element conversion raises the value error exactly
when the output voltage is zero (guarding the turns-count division),
and otherwise returns engine code 14 with the single property
`input voltage / output voltage`; the error branch is unreachable
whenever the output voltage is non-zero. -/
theorem transformer_division_guard :
    ∀ (e : Element) (vp vs : ℚ),
      e.modelId = "Transformer" →
      getRequiredFloat e "输入电压" = .ok vp →
      getRequiredFloat e "输出电压" = .ok vs →
      (vs = 0 → toPhyEngineElement e =
          .error (.valueError "Transformer output voltage must be non-zero")) ∧
      (vs ≠ 0 → toPhyEngineElement e = .ok (14, [vp / vs])) := by
  intro e vp vs hm hvp hvs
  have hbody : toPhyEngineElement e = (do
      let a ← getRequiredFloat e "输入电压"
      let b ← getRequiredFloat e "输出电压"
      if b = 0 then .error (.valueError "Transformer output voltage must be non-zero")
      else .ok (14, [a / b])) := by
    unfold toPhyEngineElement
    rw [hm]
    exact rfl
  constructor <;> intro h0 <;> rw [hbody, hvp, hvs]
  · show (if vs = 0 then
          (Except.error (PhyError.valueError "Transformer output voltage must be non-zero") :
            Except PhyError (Int × List ℚ))
        else Except.ok (14, [vp / vs])) = _
    rw [if_pos h0]
  · show (if vs = 0 then
          (Except.error (PhyError.valueError "Transformer output voltage must be non-zero") :
            Except PhyError (Int × List ℚ))
        else Except.ok (14, [vp / vs])) = _
    rw [if_neg h0]

theorem transformer_division_guard_witness :
    ((2 : ℚ) = 0 → toPhyEngineElement transformerE =
        .error (.valueError "Transformer output voltage must be non-zero")) ∧
    ((2 : ℚ) ≠ 0 → toPhyEngineElement transformerE = .ok (14, [4 / 2])) :=
  transformer_division_guard transformerE 4 2 rfl rfl rfl

end PhyEngine
